import Mathlib

/-!
Shallow embedding of the GRIB reader (climetlab/readers/grib.py) and proofs
about its message scanner, index cache, field access, and statistics.

A GRIB file is modelled as a list of byte values.  File positions are
natural numbers; message lengths are integers because the edition-1
length-correction formula is integer arithmetic on the decoded fields.
-/

/-- Big-endian accumulation of a byte buffer, as in the local `get` helper
of `_get_message_offsets`: `n = n * 256 + int(i)` over the bytes read. -/
def beNat (buf : List Nat) : Nat := buf.foldl (fun n b => n * 256 + b) 0

/-- `os.read` of `count` bytes at absolute position `pos`, as consumed by the
scanner helper `get`: the bytes if `count` of them are available, otherwise
`none` (the `assert len(buf) == count` failure on a truncated read). -/
def readBytes (data : List Nat) (pos count : Nat) : Option (List Nat) :=
  let buf := (data.drop pos).take count
  if buf.length = count then some buf else none

/-- The scanner helper `get(count)`: read `count` bytes at `pos` and fold
them big-endian. -/
def getBE (data : List Nat) (pos count : Nat) : Option Nat :=
  (readBytes data pos count).map beNat

/-- `int.from_bytes(os.read(fd, 1), ...)` for the edition-1 flags byte: one
byte if available, else 0 (reading at end of file yields the empty byte
string, whose big-endian value is 0; this read is not length-checked in the
source). -/
def byteOr0 (data : List Nat) (pos : Nat) : Nat :=
  beNat ((data.drop pos).take 1)

/-- The 4-byte message marker `b"GRIB"`. -/
def GRIB_MAGIC : List Nat := [71, 82, 73, 66]

/-- The edition-1 section walk of `_get_message_offsets` (lines 102-119):
after the marker, 3-byte length and 1-byte edition, read the section-1
length at `offset + 8`, the flags byte at `offset + 15`, skip section 1
(position `offset + 8 + sec1len`), then skip sections 2 and 3 when their
flag bits are set, and finally read the raw 3-byte section-4 length.
Positions track the file-descriptor seeks of the source exactly. -/
def gribSec4len (data : List Nat) (offset : Nat) : Option Nat := do
  let sec1len ← getBE data (offset + 8) 3
  let flags := byteOr0 data (offset + 15)
  let p1 := offset + 8 + sec1len
  let p2 ← if flags &&& 128 ≠ 0 then
      (getBE data p1 3).map (fun sec2len => p1 + sec2len)
    else pure p1
  let p3 ← if flags &&& 64 ≠ 0 then
      (getBE data p2 3).map (fun sec3len => p2 + sec3len)
    else pure p2
  getBE data p3 3

/-- Total message length computed at a matched `GRIB` marker
(`_get_message_offsets`, lines 99-128): the 3-byte outer length and 1-byte
edition follow the marker.  For edition 1 with the high bit of the outer
length set, walk the sections; if the raw section-4 length is below 120,
the corrected total is `(length &&& 0x7FFFFF) * 120 - sec4len + 4`.  For
edition 2 the authoritative length is the 8-byte field at `offset + 8`. -/
def messageLength (data : List Nat) (offset : Nat) : Option Int := do
  let len ← getBE data (offset + 4) 3
  let edition ← getBE data (offset + 7) 1
  if edition = 1 ∧ len &&& 0x800000 ≠ 0 then
    let sec4len ← gribSec4len data offset
    if sec4len < 120 then
      pure (((len &&& 0x7FFFFF : Nat) : Int) * 120 - (sec4len : Int) + 4)
    else
      pure (len : Int)
  else if edition = 2 then do
    let len2 ← getBE data (offset + 8) 8
    pure ((len2 : Nat) : Int)
  else
    pure (len : Int)

/-- The scanning loop of `_get_message_offsets`, with explicit fuel for
termination (each iteration advances the offset by at least one byte when
message lengths are positive).  At each offset: fewer than 4 readable bytes
ends the scan; a non-marker advances one byte; a marker yields
`(offset, length)` and seeks to `offset + length`.  `none` models an
uncaught exception (truncated length fields, a negative seek target, or
exhausted fuel). -/
def scanFrom (data : List Nat) : Nat → Nat → Option (List (Nat × Int))
  | 0, _ => none
  | fuel + 1, offset =>
    match readBytes data offset 4 with
    | none => some []
    | some code =>
      if code = GRIB_MAGIC then
        match messageLength data offset with
        | none => none
        | some len =>
          if 0 ≤ (offset : Int) + len then
            (scanFrom data fuel ((offset : Int) + len).toNat).map
              (fun tail => (offset, len) :: tail)
          else none
      else
        scanFrom data fuel (offset + 1)

/-- `_get_message_offsets(path)` run to completion on the whole file. -/
def get_message_offsets (data : List Nat) : Option (List (Nat × Int)) :=
  scanFrom data (data.length + 1) 0

/-- A `GribField` of one reader is identified by the message offset it was
constructed with (`GribField.__init__` stores `reader` and `offset`; the
reader is shared, so two fields of one reader denote the same message
exactly when their offsets agree). -/
structure GribFieldRef where
  offset : Nat
  deriving DecidableEq

/-- Python list subscription `l[n]` with its negative-index semantics:
`none` models the `IndexError`. -/
def pyGetElem {α : Type} (l : List α) (n : Int) : Option α :=
  if 0 ≤ n then l[n.toNat]?
  else if 0 ≤ n + l.length then l[(n + l.length).toNat]?
  else none

/-- `GRIBReader.__getitem__(n)`: build a `GribField` at
`self.index.offsets[n]`; `none` models the `IndexError` from the list
subscription. -/
def GRIBReader.getitem (offsets : List Nat) (n : Int) : Option GribFieldRef :=
  (pyGetElem offsets n).map GribFieldRef.mk

/-- `GRIBReader.first`: builds a `GribField` at the literal offset 0. -/
def GRIBReader.first : GribFieldRef := ⟨0⟩

/-- `GRIBReader.__len__`: the number of index entries. -/
def GRIBReader.length (offsets : List Nat) : Nat := offsets.length

/-- A crafted edition-1 message exercising the length-correction quirk:
outer length field `0x800001` (flag bit set, masked value 1), edition 1,
section-1 length 8, flags byte 0 (no optional sections), raw section-4
length 100 (< 120).  Corrected total: `1 * 120 - 100 + 4 = 24`. -/
def quirkMessage : List Nat :=
  [71, 82, 73, 66, 128, 0, 1, 1, 0, 0, 8, 0, 0, 0, 0, 0, 0, 0, 100]

/-- Claim C4: for an edition-1 message whose 24-bit outer length field has
the high flag bit set and whose section-4 length, reached by walking
section 1 and the optional sections 2 and 3, is below 120, the scanner
computes the total message length as
`(outer &&& 0x7FFFFF) * 120 - sec4len + 4`, and at such a marker it yields
exactly that length before seeking past the message. -/
theorem edition1_quirk_corrected_length (data : List Nat) (offset L s4 : Nat)
    (hL : getBE data (offset + 4) 3 = some L)
    (hE : getBE data (offset + 7) 1 = some 1)
    (hflag : L &&& 0x800000 ≠ 0)
    (hs4 : gribSec4len data offset = some s4)
    (hlt : s4 < 120)
    (hmark : readBytes data offset 4 = some GRIB_MAGIC)
    (hpos : 0 ≤ (offset : Int) + (((L &&& 0x7FFFFF : Nat) : Int) * 120 - (s4 : Int) + 4)) :
    messageLength data offset =
      some (((L &&& 0x7FFFFF : Nat) : Int) * 120 - (s4 : Int) + 4) ∧
    ∀ fuel, scanFrom data (fuel + 1) offset =
      (scanFrom data fuel
          (((offset : Int) + (((L &&& 0x7FFFFF : Nat) : Int) * 120 - (s4 : Int) + 4)).toNat)).map
        (fun tail => (offset, ((L &&& 0x7FFFFF : Nat) : Int) * 120 - (s4 : Int) + 4) :: tail) := by
  have h1 : messageLength data offset =
      some (((L &&& 0x7FFFFF : Nat) : Int) * 120 - (s4 : Int) + 4) := by
    simp [messageLength, hL, hE, hflag, hs4, hlt]
  refine ⟨h1, fun fuel => ?_⟩
  simp [scanFrom, hmark, h1, hpos]

/-- Claim C4 witness: the crafted quirk message has outer length `0x800001`
and section-4 length 100, and the scanner yields the corrected length 24. -/
theorem edition1_quirk_corrected_length_witness :
    messageLength quirkMessage 0 = some 24 ∧
    get_message_offsets quirkMessage = some [(0, 24)] := by
  have h := edition1_quirk_corrected_length quirkMessage 0 8388609 100 (by decide) (by decide)
      (by decide) (by decide) (by decide) (by decide) (by decide)
  exact ⟨h.1.trans (by decide), by decide⟩

/-- Claim C1 counterexample: on a file with one byte of leading padding
before a valid message, the index records the first message at offset 1,
so `field_at(0)` is backed by offset 1, while `first` is built at the
literal offset 0 and is therefore not the same field. -/
theorem first_not_field_at_zero_cex :
    get_message_offsets (0 :: quirkMessage) = some [(1, 24)] ∧
    GRIBReader.getitem [1] 0 = some ⟨1⟩ ∧
    GRIBReader.first ≠ GribFieldRef.mk 1 := by decide

/-- Claim C1 (amended): `first` builds the Field at the literal byte offset
0 of the file; for a reader with a non-empty index it coincides with the
Field returned by random access at index 0 exactly when
`index.offsets[0] = 0`, i.e. when the first message starts at the very
beginning of the file. -/
theorem first_eq_field_at_zero_iff (offsets : List Nat) (h : offsets ≠ []) :
    GRIBReader.first = GribFieldRef.mk 0 ∧
    (GRIBReader.getitem offsets 0 = some GRIBReader.first ↔ offsets.headI = 0) := by
  refine ⟨rfl, ?_⟩
  cases offsets with
  | nil => exact absurd rfl h
  | cons a as =>
    simp [GRIBReader.getitem, pyGetElem, GRIBReader.first, GribFieldRef.mk.injEq]

/-- Claim C1 witness: on an index whose first offset is 0, `first` and
`field_at(0)` agree. -/
theorem first_eq_field_at_zero_iff_witness :
    GRIBReader.getitem [0] 0 = some GRIBReader.first :=
  ((first_eq_field_at_zero_iff [0] (by decide)).2).mpr (by decide)

/-- Claim C2 counterexample: `field_at(-1)` on a one-message reader is not
an out-of-range error although `-1` is outside `0 <= n < length()`:
Python negative indexing returns the last offset. -/
theorem getitem_negative_index_cex :
    GRIBReader.getitem [5] (-1) = some ⟨5⟩ ∧
    ¬ (0 ≤ (-1 : Int) ∧ (-1 : Int) < (GRIBReader.length [5] : Int)) := by decide

/-- Claim C2 (amended): `field_at(n)` raises the out-of-range error exactly
when `n < -length()` or `n >= length()`; for `0 <= n < length()` it returns
the Field built at `index.offsets[n]` (and for `-length() <= n < 0` it
returns the Field at `index.offsets[n + length()]`, Python negative
indexing). -/
theorem getitem_range (offsets : List Nat) (n : Int) :
    (GRIBReader.getitem offsets n = none ↔
      n < -(GRIBReader.length offsets : Int) ∨ (GRIBReader.length offsets : Int) ≤ n) ∧
    (0 ≤ n → n < (GRIBReader.length offsets : Int) →
      GRIBReader.getitem offsets n = some ⟨offsets.getD n.toNat 0⟩) ∧
    (-(GRIBReader.length offsets : Int) ≤ n → n < 0 →
      GRIBReader.getitem offsets n = some ⟨offsets.getD (n + offsets.length).toNat 0⟩) := by
  refine ⟨?_, ?_, ?_⟩
  · unfold GRIBReader.getitem pyGetElem GRIBReader.length
    split_ifs with h0 h1
    · simp only [Option.map_eq_none', List.getElem?_eq_none_iff]
      omega
    · have hlt : (n + offsets.length).toNat < offsets.length := by omega
      rw [List.getElem?_eq_getElem hlt]
      simp only [Option.map_some', reduceCtorEq, false_iff]
      omega
    · exact iff_of_true rfl (by omega)
  · intro h0 h1
    have hlt : n.toNat < offsets.length := by
      unfold GRIBReader.length at h1
      omega
    unfold GRIBReader.getitem pyGetElem
    rw [if_pos h0, List.getElem?_eq_getElem hlt]
    simp [List.getD, List.getElem?_eq_getElem hlt]
  · intro h0 h1
    unfold GRIBReader.length at h0
    have hlt : (n + offsets.length).toNat < offsets.length := by omega
    unfold GRIBReader.getitem pyGetElem
    rw [if_neg (by omega : ¬ (0 : Int) ≤ n),
      if_pos (by omega : (0 : Int) ≤ n + offsets.length),
      List.getElem?_eq_getElem hlt]
    simp [List.getD, List.getElem?_eq_getElem hlt]

/-- Claim C2 witness: on a two-message index, `field_at(1)` is in range and
returns the Field at the second offset, `field_at(-2)` returns the Field at
the first offset (negative indexing), and `field_at(2)` is the
out-of-range error. -/
theorem getitem_range_witness :
    GRIBReader.getitem [3, 7] 1 = some ⟨7⟩ ∧
    GRIBReader.getitem [3, 7] (-2) = some ⟨3⟩ ∧
    GRIBReader.getitem [3, 7] 2 = none := by
  refine ⟨?_, ?_, ?_⟩
  · exact ((getitem_range [3, 7] 1).2.1 (by decide) (by decide)).trans (by decide)
  · exact ((getitem_range [3, 7] (-2)).2.2 (by decide) (by decide)).trans (by decide)
  · exact ((getitem_range [3, 7] 2).1).mpr (by decide)

/-- A parsed JSON value, the possible outcomes of `json.load` on a sidecar
cache file. -/
inductive PyJson where
  | null
  | bool (b : Bool)
  | num (q : ℚ)
  | str (s : String)
  | arr (elems : List PyJson)
  | obj (entries : List (String × PyJson))

/-- Lookup in a Python dict built by `json.load` from an object: the last
binding of a repeated key wins. -/
def lookupLast (kvs : List (String × PyJson)) (k : String) : Option PyJson :=
  kvs.reverse.lookup k

/-- Python `==` between a JSON value and the integer schema version
(`c["version"] == self.VERSION`): JSON numbers compare numerically and
Python booleans compare as 0/1; every other JSON type compares unequal. -/
def pyEqNat : PyJson → Nat → Bool
  | .num q, n => q = (n : ℚ)
  | .bool b, n => (if b then (1 : ℚ) else 0) = (n : ℚ)
  | _, _ => false

/-- `GRIBIndex.VERSION`. -/
def GRIBIndex.VERSION : Nat := 1

/-- `GRIBIndex._load_cache` over the parse outcome of the index sidecar
(`none` = `json.load` raised): every failure path -- unreadable content, a
non-dict value, a missing or non-matching `version`, a missing `offsets` or
`lengths` key -- is caught (or returned as `False`) and reported as a cache
miss, never as an error; on success the raw `offsets` and `lengths` values
are stored without further shape validation. -/
def GRIBIndex.load_cache (content : Option PyJson) : Option (PyJson × PyJson) :=
  match content with
  | none => none
  | some (.obj kvs) =>
    match lookupLast kvs "version" with
    | none => none
    | some v =>
      if pyEqNat v GRIBIndex.VERSION then
        match lookupLast kvs "offsets", lookupLast kvs "lengths" with
        | some o, some l => some (o, l)
        | _, _ => none
      else none
  | some _ => none

/-- `GRIBIndex.__init__`: `if not self._load_cache(): self._build_index()`.
A cache hit keeps the sidecar values; a miss re-runs the scanner over the
file bytes. -/
def GRIBIndex.init (content : Option PyJson) (data : List Nat) :
    (PyJson × PyJson) ⊕ Option (List (Nat × Int)) :=
  match GRIBIndex.load_cache content with
  | some ol => Sum.inl ol
  | none => Sum.inr (get_message_offsets data)

/-- A value returned by the eccodes decoder for one key of one message. -/
inductive GribValue where
  | int (i : Int)
  | float (q : ℚ)
  | str (s : String)
  | arr (xs : List ℚ)
  deriving DecidableEq

/-- An eccodes exception: the `KeyValueNotFoundError` that `CodesHandle.get`
catches, or any other decoder error (which it does not catch). -/
inductive CodesErr where
  | keyValueNotFound
  | internalError
  deriving DecidableEq

/-- Python exceptions surfaced by the embedded fragments. -/
inductive PyErr where
  | jsonDecodeError
  | assertionError
  | typeError
  | valueError
  | attributeError
  | codesError (e : CodesErr)
  deriving DecidableEq

/-- The statistics-sidecar load of `GRIBReader.statistics` (lines 684-688):
`json.load` runs with no exception handling, so an unparseable sidecar
propagates its parse error to the caller; a parsed `null` falls through to
the computation (`ok none`); any other parsed value is returned as the
statistics as-is (`ok (some v)`), with no shape or version check. -/
def GRIBReader.statistics_load (content : Option PyJson) : Except PyErr (Option PyJson) :=
  match content with
  | none => Except.error PyErr.jsonDecodeError
  | some .null => Except.ok none
  | some j => Except.ok (some j)

/-- Claim C3 counterexample: an unparseable statistics sidecar propagates
the parse failure to the caller instead of being treated as a cache miss,
and a parseable sidecar of the wrong shape is returned as the statistics
instead of triggering recomputation. -/
theorem statistics_sidecar_not_tolerant_cex :
    GRIBReader.statistics_load none = Except.error PyErr.jsonDecodeError ∧
    GRIBReader.statistics_load (some (.num 42)) = Except.ok (some (.num 42)) :=
  ⟨rfl, rfl⟩

/-- Claim C3 (amended): the index sidecar is loaded tolerantly -- content
that is unparseable, parses to a non-record value, lacks a `version` tag,
carries a `version` different from the current schema version, or lacks
the `offsets` or `lengths` key, is a cache miss that triggers a rebuild by
re-scanning, and no failure reaches the caller (the values under `offsets`
and `lengths` are not themselves shape-checked).  The statistics sidecar is
not loaded tolerantly: unparseable content propagates a parse error to the
caller, and any parseable non-null content is returned as the statistics
without shape or version validation. -/
theorem index_cache_tolerant_load (content : Option PyJson) (data : List Nat) :
    (GRIBIndex.load_cache content = none →
      GRIBIndex.init content data = Sum.inr (get_message_offsets data)) ∧
    (content = none → GRIBIndex.load_cache content = none) ∧
    (∀ j, content = some j → (∀ kvs, j ≠ PyJson.obj kvs) →
      GRIBIndex.load_cache content = none) ∧
    (∀ kvs, content = some (PyJson.obj kvs) → lookupLast kvs "version" = none →
      GRIBIndex.load_cache content = none) ∧
    (∀ kvs v, content = some (PyJson.obj kvs) → lookupLast kvs "version" = some v →
      pyEqNat v GRIBIndex.VERSION = false → GRIBIndex.load_cache content = none) ∧
    (∀ kvs v, content = some (PyJson.obj kvs) → lookupLast kvs "version" = some v →
      pyEqNat v GRIBIndex.VERSION = true →
      lookupLast kvs "offsets" = none ∨ lookupLast kvs "lengths" = none →
      GRIBIndex.load_cache content = none) ∧
    (content = none →
      GRIBReader.statistics_load content = Except.error PyErr.jsonDecodeError) ∧
    (∀ j, content = some j → j ≠ PyJson.null →
      GRIBReader.statistics_load content = Except.ok (some j)) := by
  refine ⟨fun h => ?_, fun h => by subst h; rfl, ?_, ?_, ?_, ?_,
    fun h => by subst h; rfl, ?_⟩
  · unfold GRIBIndex.init
    rw [h]
  · intro j hc hno
    subst hc
    cases j with
    | null => rfl
    | bool b => rfl
    | num q => rfl
    | str q => rfl
    | arr elems => rfl
    | obj kvs => exact absurd rfl (hno kvs)
  · intro kvs hc hv
    subst hc
    simp [GRIBIndex.load_cache, hv]
  · intro kvs v hc hv hne
    subst hc
    simp [GRIBIndex.load_cache, hv, hne]
  · intro kvs v hc hv hok hmiss
    subst hc
    rcases hmiss with ho | hl
    · simp [GRIBIndex.load_cache, hv, hok, ho]
    · cases hoff : lookupLast kvs "offsets" with
      | none => simp [GRIBIndex.load_cache, hv, hok, hoff]
      | some o => simp [GRIBIndex.load_cache, hv, hok, hoff, hl]
  · intro j hc hne
    subst hc
    cases j with
    | null => exact absurd rfl hne
    | bool b => rfl
    | num q => rfl
    | str q => rfl
    | arr elems => rfl
    | obj kvs => rfl

/-- Claim C3 witness: a sidecar whose `version` is 2 is a miss that
triggers a rebuild, a non-record sidecar is also a miss, and a parseable
non-null statistics sidecar of the wrong shape is returned as-is. -/
theorem index_cache_tolerant_load_witness :
    GRIBIndex.load_cache (some (.obj [("version", .num 2)])) = none ∧
    GRIBIndex.init (some (.obj [("version", .num 2)])) [] =
      Sum.inr (get_message_offsets []) ∧
    GRIBIndex.load_cache (some (.str "junk")) = none ∧
    GRIBReader.statistics_load (some (.num 42)) = Except.ok (some (.num 42)) := by
  have t1 := index_cache_tolerant_load (some (.obj [("version", .num 2)])) []
  have h5 := t1.2.2.2.2.1 [("version", .num 2)] (.num 2) rfl rfl (by decide)
  have t2 := index_cache_tolerant_load (some (.str "junk")) []
  have h3 := t2.2.2.1 (.str "junk") rfl (fun kvs h => PyJson.noConfusion h)
  have t3 := index_cache_tolerant_load (some (.num 42)) []
  have h8 := t3.2.2.2.2.2.2.2 (.num 42) rfl (fun h => PyJson.noConfusion h)
  exact ⟨h5, t1.1 h5, h3, h8⟩

/-- The external decoder behaviour for one decoded message: the three
eccodes entry points used by `CodesHandle.get`. -/
structure EcCodes where
  codes_get : String → Except CodesErr GribValue
  codes_get_values : Except CodesErr (List ℚ)
  codes_get_double_array : String → Except CodesErr (List ℚ)

/-- The body of the `try` block of `CodesHandle.get`: `values` uses
`codes_get_values`, the two `distinct*` keys use `codes_get_double_array`,
and every other key uses `codes_get`. -/
def CodesHandle.rawGet (ec : EcCodes) (name : String) : Except CodesErr GribValue :=
  if name = "values" then ec.codes_get_values.map GribValue.arr
  else if name = "distinctLatitudes" ∨ name = "distinctLongitudes" then
    (ec.codes_get_double_array name).map GribValue.arr
  else ec.codes_get name

/-- `CodesHandle.get(name)`: delegate to the decoder and translate its
`KeyValueNotFoundError` into `None`; any other decoder error propagates. -/
def CodesHandle.get (ec : EcCodes) (name : String) : Except CodesErr (Option GribValue) :=
  match CodesHandle.rawGet ec name with
  | Except.error CodesErr.keyValueNotFound => Except.ok none
  | Except.error e => Except.error e
  | Except.ok v => Except.ok (some v)

/-- Claim C8: whenever the external decoder signals key-not-found for a
name, `CodesHandle.get` returns the explicit absent value (`None`) instead
of propagating the lookup fault. -/
theorem codes_handle_get_key_not_found (ec : EcCodes) (name : String)
    (h : CodesHandle.rawGet ec name = Except.error CodesErr.keyValueNotFound) :
    CodesHandle.get ec name = Except.ok none := by
  unfold CodesHandle.get
  rw [h]

/-- A decoder stub for which every scalar key is missing. -/
def emptyCodes : EcCodes where
  codes_get := fun _ => Except.error CodesErr.keyValueNotFound
  codes_get_values := Except.error CodesErr.keyValueNotFound
  codes_get_double_array := fun _ => Except.error CodesErr.keyValueNotFound

/-- Claim C8 witness: on a message without a `shortName` key, `get`
answers `None`. -/
theorem codes_handle_get_key_not_found_witness :
    CodesHandle.get emptyCodes "shortName" = Except.ok none :=
  codes_handle_get_key_not_found emptyCodes "shortName" rfl

/-- `missing_is_none`: the decoder sentinel 2147483647 maps to the absent
value; everything else (including an already absent value) passes through. -/
def missing_is_none (x : Option GribValue) : Option GribValue :=
  if x = some (GribValue.int 2147483647) then none else x

/-- `GribField.shape`: `(missing_is_none(get("Nj")), missing_is_none(get("Ni")))`. -/
def GribField.shape (ec : EcCodes) : Except CodesErr (Option GribValue × Option GribValue) := do
  let nj ← CodesHandle.get ec "Nj"
  let ni ← CodesHandle.get ec "Ni"
  pure (missing_is_none nj, missing_is_none ni)

/-- `GribField.values`: `self.handle.get("values")`. -/
def GribField.values (ec : EcCodes) : Except CodesErr (Option GribValue) :=
  CodesHandle.get ec "values"

/-- The result of `GribField.to_numpy`: either the raw (possibly absent)
flat values object, or the values reshaped into `nj` rows of `ni` cells. -/
inductive NpValues where
  | raw (v : Option GribValue)
  | matrix (rows : List (List ℚ))
  deriving DecidableEq

/-- Split a flat sequence into `nj` rows of `ni` cells. -/
def npRows (ni : Nat) : Nat → List ℚ → List (List ℚ)
  | 0, _ => []
  | nj + 1, vs => vs.take ni :: npRows ni nj (vs.drop ni)

/-- `values.reshape((nj, ni))` for the non-negative integer dimensions the
decoder supplies: succeeds exactly when `nj * ni` equals the number of
cells, else raises; non-integer dimensions raise a type error. -/
def npReshape (vs : List ℚ) (a b : GribValue) : Except PyErr NpValues :=
  match a, b with
  | GribValue.int nj, GribValue.int ni =>
    if 0 ≤ nj ∧ 0 ≤ ni ∧ nj.toNat * ni.toNat = vs.length then
      Except.ok (NpValues.matrix (npRows ni.toNat nj.toNat vs))
    else Except.error PyErr.valueError
  | _, _ => Except.error PyErr.typeError

/-- `GribField.to_numpy(normalise)`: compute `shape`; if either dimension
is absent return the flat values unreshaped; otherwise reshape (the source
duplicates the same reshape expression in both branches of
`if normalise`). -/
def GribField.to_numpy (ec : EcCodes) (normalise : Bool) : Except PyErr NpValues :=
  match GribField.shape ec with
  | Except.error e => Except.error (PyErr.codesError e)
  | Except.ok shape =>
    if shape.1 = none ∨ shape.2 = none then
      match GribField.values ec with
      | Except.error e => Except.error (PyErr.codesError e)
      | Except.ok v => Except.ok (NpValues.raw v)
    else
      match GribField.values ec with
      | Except.error e => Except.error (PyErr.codesError e)
      | Except.ok none => Except.error PyErr.attributeError
      | Except.ok (some (GribValue.arr vs)) =>
        match shape.1, shape.2 with
        | some a, some b => if normalise then npReshape vs a b else npReshape vs a b
        | _, _ => Except.error PyErr.attributeError
      | Except.ok (some _) => Except.error PyErr.attributeError

/-- Claim C7: when the decoder returns the sentinel 2147483647 for `Nj` or
`Ni`, `shape` carries the absent value in that slot, and `to_numpy`
returns the flat, unreshaped values object instead of raising. -/
theorem sentinel_shape_to_numpy_flat (ec : EcCodes) (nj ni vv : Option GribValue)
    (hnj : CodesHandle.get ec "Nj" = Except.ok nj)
    (hni : CodesHandle.get ec "Ni" = Except.ok ni)
    (hsent : nj = some (GribValue.int 2147483647) ∨ ni = some (GribValue.int 2147483647))
    (hval : GribField.values ec = Except.ok vv) :
    GribField.shape ec = Except.ok (missing_is_none nj, missing_is_none ni) ∧
    (nj = some (GribValue.int 2147483647) → missing_is_none nj = none) ∧
    (ni = some (GribValue.int 2147483647) → missing_is_none ni = none) ∧
    GribField.to_numpy ec true = Except.ok (NpValues.raw vv) ∧
    GribField.to_numpy ec false = Except.ok (NpValues.raw vv) := by
  have hshape : GribField.shape ec = Except.ok (missing_is_none nj, missing_is_none ni) := by
    simp only [GribField.shape, hnj, hni]
    rfl
  have habs : missing_is_none nj = none ∨ missing_is_none ni = none := by
    rcases hsent with h | h <;> [left; right] <;> simp [missing_is_none, h]
  have hnum : ∀ b, GribField.to_numpy ec b = Except.ok (NpValues.raw vv) := by
    intro b
    unfold GribField.to_numpy
    simp only [hshape]
    rw [if_pos habs, hval]
  exact ⟨hshape, fun h => by simp [missing_is_none, h],
    fun h => by simp [missing_is_none, h], hnum true, hnum false⟩

/-- A decoder stub whose grid has a sentinel `Ni` (e.g. a reduced Gaussian
grid), a real `Nj`, and three values. -/
def sentinelCodes : EcCodes where
  codes_get := fun name =>
    if name = "Ni" then Except.ok (GribValue.int 2147483647)
    else if name = "Nj" then Except.ok (GribValue.int 2)
    else Except.error CodesErr.keyValueNotFound
  codes_get_values := Except.ok [1, 2, 3]
  codes_get_double_array := fun _ => Except.error CodesErr.keyValueNotFound

/-- Claim C7 witness: on the sentinel-`Ni` message, `shape` is
`(some 2, absent)` and `to_numpy` returns the flat values. -/
theorem sentinel_shape_to_numpy_flat_witness :
    GribField.shape sentinelCodes = Except.ok (some (GribValue.int 2), none) ∧
    GribField.to_numpy sentinelCodes false =
      Except.ok (NpValues.raw (some (GribValue.arr [1, 2, 3]))) := by
  have h := sentinel_shape_to_numpy_flat sentinelCodes (some (GribValue.int 2))
      (some (GribValue.int 2147483647)) (some (GribValue.arr [1, 2, 3]))
      rfl rfl (Or.inr rfl) rfl
  exact ⟨h.1.trans rfl, h.2.2.2.2⟩

/-- Claim C10: the `normalise` flag of `to_numpy` has no effect on the
result -- both branches of the source return the same expression. -/
theorem to_numpy_normalise_no_effect (ec : EcCodes) :
    GribField.to_numpy ec true = GribField.to_numpy ec false := rfl

/-- A decoded handle as returned by `CodesReader.at_offset`: it is bound to
the offset it was decoded from. -/
structure CHandle where
  offset : Nat
  deriving DecidableEq

/-- The observable state of a `CodesReader` (Cursor): the seek position of
its file descriptor and a decode-invocation counter instrumenting
`codes_new_from_file` (the spec's decode counter).  `at_offset` seeks to
the requested offset and decodes one handle there; the position the decode
call leaves behind is not needed by any claim and is recorded as the seek
target. -/
structure CodesReaderSt where
  pos : Nat
  decode_count : Nat
  deriving DecidableEq

/-- `CodesReader.at_offset(offset)`: seek then decode-next. -/
def CodesReader.at_offset (c : CodesReaderSt) (offset : Nat) : CHandle × CodesReaderSt :=
  (⟨offset⟩, { pos := offset, decode_count := c.decode_count + 1 })

/-- The lazy state of a `GribField`: the cached `_handle` (absent until the
first accessor materializes it) and the `_offset` it was constructed with. -/
structure GribFieldSt where
  handle : Option CHandle
  offset : Nat
  deriving DecidableEq

/-- `GribField.__init__(handle=None, reader=..., offset=offset)`: pure
construction, no decode. -/
def GribField.init (offset : Nat) : GribFieldSt := ⟨none, offset⟩

/-- The `GribField.handle` property: reuse the cached handle if present,
otherwise materialize it once via `reader.at_offset(self._offset)` and
cache it.  Returns the handle together with the updated field and cursor
states. -/
def GribField.handleProp (f : GribFieldSt) (c : CodesReaderSt) :
    CHandle × GribFieldSt × CodesReaderSt :=
  match f.handle with
  | some h => (h, f, c)
  | none =>
    let hc := CodesReader.at_offset c f.offset
    (hc.1, { f with handle := some hc.1 }, hc.2)

/-- Claim C9: a Field constructed with `(cursor, offset)` and no handle
holds no materialized handle (construction decodes nothing and leaves the
cursor untouched); its first accessor performs exactly one decode via
`cursor.at_offset(offset)` and caches the resulting handle; a second
accessor returns the same handle and changes neither the field nor the
cursor state (no re-decode, no re-seek). -/
theorem grib_field_lazy_handle (offset : Nat) (c : CodesReaderSt) :
    (GribField.init offset).handle = none ∧
    (let r1 := GribField.handleProp (GribField.init offset) c
     let r2 := GribField.handleProp r1.2.1 r1.2.2
     r1.2.2.decode_count = c.decode_count + 1 ∧
     r1.1 = CHandle.mk offset ∧
     r1.2.1.handle = some (CHandle.mk offset) ∧
     r2.1 = r1.1 ∧ r2.2.1 = r1.2.1 ∧ r2.2.2 = r1.2.2) :=
  ⟨rfl, rfl, rfl, rfl, rfl, rfl, rfl⟩

/-!
Statistics (`GRIBReader.statistics`, lines 690-732).  A grid cell is
`Option ℚ`: `none` models the floating NaN, which every numpy elementwise
operation used by the loop (`add`, `multiply`, `maximum`, `minimum`)
propagates.  The final `stdev` of the source is
`np.sqrt(np.mean(stdev)/count - average*average)`; the embedding records
the radicand in the field `stdev_sq`, the square of the returned standard
deviation.
-/

/-- numpy elementwise `add` on possibly-NaN cells. -/
def nAdd : Option ℚ → Option ℚ → Option ℚ
  | some a, some b => some (a + b)
  | _, _ => none

/-- numpy elementwise `multiply` on possibly-NaN cells. -/
def nMul : Option ℚ → Option ℚ → Option ℚ
  | some a, some b => some (a * b)
  | _, _ => none

/-- numpy elementwise `maximum` (NaN-propagating). -/
def nMax : Option ℚ → Option ℚ → Option ℚ
  | some a, some b => some (max a b)
  | _, _ => none

/-- numpy elementwise `minimum` (NaN-propagating). -/
def nMin : Option ℚ → Option ℚ → Option ℚ
  | some a, some b => some (min a b)
  | _, _ => none

/-- The running accumulators of the statistics loop, named as in the
source: `stdev` holds the per-cell sums of squares, `average` the per-cell
sums, `maximum`/`minimum` the per-cell extrema, `count` the messages seen. -/
structure StatsAcc where
  stdev : List (Option ℚ)
  average : List (Option ℚ)
  maximum : List (Option ℚ)
  minimum : List (Option ℚ)
  count : Nat

/-- The `else` arm of the loop (first message): initialize every
accumulator from the first values array. -/
def statsInit (v : List (Option ℚ)) : StatsAcc :=
  ⟨List.zipWith nMul v v, v, v, v, 1⟩

/-- The `if count:` arm of the loop: elementwise accumulate one more
values array. -/
def statsStep (acc : StatsAcc) (v : List (Option ℚ)) : StatsAcc :=
  ⟨List.zipWith nAdd acc.stdev (List.zipWith nMul v v),
   List.zipWith nAdd acc.average v,
   List.zipWith nMax acc.maximum v,
   List.zipWith nMin acc.minimum v,
   acc.count + 1⟩

/-- The whole loop over every message of the file; `none` is the
empty-file case in which every accumulator is still Python `None`. -/
def statsAcc : List (List (Option ℚ)) → Option StatsAcc
  | [] => none
  | v :: rest => some (rest.foldl statsStep (statsInit v))

/-- `np.amin` (NaN-propagating reduction; never called on an empty array
in the embedded path). -/
def npAmin : List (Option ℚ) → Option ℚ
  | [] => none
  | v :: vs => vs.foldl nMin v

/-- `np.amax` (NaN-propagating reduction). -/
def npAmax : List (Option ℚ) → Option ℚ
  | [] => none
  | v :: vs => vs.foldl nMax v

/-- Division of a possibly-NaN scalar by a positive count. -/
def nDivNat (a : Option ℚ) (n : Nat) : Option ℚ := a.map (fun q => q / (n : ℚ))

/-- `np.mean` of a non-empty array: sum of the cells over their number. -/
def npMean (l : List (Option ℚ)) : Option ℚ := nDivNat (l.foldl nAdd (some 0)) l.length

/-- Subtraction of possibly-NaN scalars. -/
def nSub : Option ℚ → Option ℚ → Option ℚ
  | some a, some b => some (a - b)
  | _, _ => none

/-- The statistics record of the source (`minimum, maximum, average,
stdev, count`); `stdev_sq` is the square of the source's `stdev`. -/
structure Stats where
  minimum : Option ℚ
  maximum : Option ℚ
  average : Option ℚ
  stdev_sq : Option ℚ
  count : Nat
  deriving DecidableEq

/-- The computation path of `GRIBReader.statistics` (after a null sidecar):
run the loop; `np.isnan(None)` on an empty file raises a `TypeError`; the
`assert nans == 0` fires when any accumulated per-cell sum is NaN;
`np.amax` of an empty array raises a `ValueError`; otherwise reduce to the
scalar record `minimum, maximum, mean(average)/count,
mean(stdev)/count - average^2 (the squared stdev), count`. -/
def statisticsCompute (fields : List (List (Option ℚ))) : Except PyErr Stats :=
  match statsAcc fields with
  | none => Except.error PyErr.typeError
  | some acc =>
    if acc.average.any (fun c => c.isNone) then Except.error PyErr.assertionError
    else if acc.average.isEmpty then Except.error PyErr.valueError
    else
      let avg := nDivNat (npMean acc.average) acc.count
      Except.ok
        { minimum := npAmin acc.minimum
          maximum := npAmax acc.maximum
          average := avg
          stdev_sq := nSub (nDivNat (npMean acc.stdev) acc.count) (nMul avg avg)
          count := acc.count }

/-- A NaN in an elementwise sum of two equally long arrays comes exactly
from a NaN in one of the operands. -/
theorem any_isNone_zipWith_nAdd (a b : List (Option ℚ)) (h : a.length = b.length) :
    ((List.zipWith nAdd a b).any fun c => c.isNone) =
      ((a.any fun c => c.isNone) || b.any fun c => c.isNone) := by
  induction a generalizing b with
  | nil =>
    cases b with
    | nil => simp
    | cons y ys => simp at h
  | cons x xs ih =>
    cases b with
    | nil => simp at h
    | cons y ys =>
      simp only [List.zipWith_cons_cons, List.any_cons]
      rw [ih ys (by simpa using h)]
      cases x <;> cases y <;>
        simp [nAdd, Bool.or_assoc, Bool.or_comm, Bool.or_left_comm]

/-- Through the whole loop, the accumulated per-cell sums contain a NaN
exactly when the initial accumulator or one of the remaining values arrays
does (all arrays of one length). -/
theorem foldl_statsStep_average_any (m : Nat) (fs : List (List (Option ℚ))) :
    ∀ acc : StatsAcc, acc.average.length = m → (∀ v ∈ fs, v.length = m) →
      ((fs.foldl statsStep acc).average.any fun c => c.isNone) =
        ((acc.average.any fun c => c.isNone) || fs.any fun v => v.any fun c => c.isNone) := by
  induction fs with
  | nil => intro acc _ _; simp
  | cons v vs ih =>
    intro acc ha hlen
    have hv : v.length = m := hlen v (List.mem_cons_self v vs)
    have hstep : (statsStep acc v).average.length = m := by
      simp [statsStep, List.length_zipWith, ha, hv]
    rw [List.foldl_cons, ih (statsStep acc v) hstep
        (fun w hw => hlen w (List.mem_cons_of_mem v hw)), List.any_cons]
    have hzz : ((statsStep acc v).average.any fun c => c.isNone) =
        ((acc.average.any fun c => c.isNone) || v.any fun c => c.isNone) :=
      any_isNone_zipWith_nAdd acc.average v (ha.trans hv.symm)
    rw [hzz, Bool.or_assoc]

/-- Claim C6: `statistics()` fails with the assertion error exactly when
the elementwise accumulation of the values arrays contains a NaN cell --
equivalently, for conforming grids, when some input cell is NaN -- and in
that case it never returns a result. -/
theorem statistics_nan_assertion (fields : List (List (Option ℚ))) (m : Nat)
    (hlen : ∀ v ∈ fields, v.length = m) :
    (statisticsCompute fields = Except.error PyErr.assertionError ↔
      ∃ v ∈ fields, none ∈ v) ∧
    ((∃ v ∈ fields, none ∈ v) → ∀ s, statisticsCompute fields ≠ Except.ok s) := by
  have key : statisticsCompute fields = Except.error PyErr.assertionError ↔
      ∃ v ∈ fields, none ∈ v := by
    cases fields with
    | nil =>
      have h0 : statisticsCompute ([] : List (List (Option ℚ))) =
          Except.error PyErr.typeError := rfl
      rw [h0]
      simp
    | cons f fs =>
      have hf : (statsInit f).average.length = m := hlen f (List.mem_cons_self f fs)
      have hany := foldl_statsStep_average_any m fs (statsInit f) hf
          (fun w hw => hlen w (List.mem_cons_of_mem f hw))
      by_cases hA : ((fs.foldl statsStep (statsInit f)).average.any fun c => c.isNone) = true
      · have hcomp : statisticsCompute (f :: fs) = Except.error PyErr.assertionError := by
          unfold statisticsCompute
          simp only [statsAcc]
          rw [if_pos hA]
        rw [hcomp]
        simp only [true_iff]
        have hcons : ((f :: fs).any fun v => v.any fun c => c.isNone) = true := by
          rw [List.any_cons]
          exact hany ▸ hA
        simpa [List.any_eq_true, Option.isNone_iff_eq_none] using hcons
      · have hnact : statisticsCompute (f :: fs) ≠ Except.error PyErr.assertionError := by
          unfold statisticsCompute
          simp only [statsAcc]
          rw [if_neg hA]
          split <;> simp
        constructor
        · intro h
          exact absurd h hnact
        · intro hP
          exfalso
          apply hA
          have hcons : ((f :: fs).any fun v => v.any fun c => c.isNone) = true := by
            simpa [List.any_eq_true, Option.isNone_iff_eq_none] using hP
          rw [List.any_cons] at hcons
          exact hany.trans hcons
  exact ⟨key, fun hP s => by rw [key.mpr hP]; simp⟩

/-- Claim C6 witness: a single message with a NaN cell makes
`statistics()` fail with the assertion error. -/
theorem statistics_nan_assertion_witness :
    statisticsCompute [[some 1, none]] = Except.error PyErr.assertionError := by
  refine ((statistics_nan_assertion [[some 1, none]] 2 ?_).1).mpr ?_
  · intro v hv
    simp only [List.mem_singleton] at hv
    subst hv
    rfl
  · exact ⟨[some 1, none], by simp, by simp⟩

/-- The statistics accumulators for NaN-free inputs, over plain rationals. -/
structure QAcc where
  stdev : List ℚ
  average : List ℚ
  maximum : List ℚ
  minimum : List ℚ
  count : Nat

/-- NaN-free image of the first-message initialization. -/
def qInit (v : List ℚ) : QAcc :=
  ⟨List.zipWith (fun a b => a * b) v v, v, v, v, 1⟩

/-- NaN-free image of one accumulation step. -/
def qStep (acc : QAcc) (v : List ℚ) : QAcc :=
  ⟨List.zipWith (fun a b => a + b) acc.stdev (List.zipWith (fun a b => a * b) v v),
   List.zipWith (fun a b => a + b) acc.average v,
   List.zipWith max acc.maximum v,
   List.zipWith min acc.minimum v,
   acc.count + 1⟩

/-- Inject a NaN-free accumulator into the NaN-aware one. -/
def liftAcc (q : QAcc) : StatsAcc :=
  ⟨q.stdev.map some, q.average.map some, q.maximum.map some, q.minimum.map some, q.count⟩

/-- Elementwise operations on NaN-free arrays commute with injection. -/
theorem zipWith_some_lift (f : Option ℚ → Option ℚ → Option ℚ) (g : ℚ → ℚ → ℚ)
    (hfg : ∀ a b : ℚ, f (some a) (some b) = some (g a b)) (a b : List ℚ) :
    List.zipWith f (a.map some) (b.map some) = (List.zipWith g a b).map some := by
  induction a generalizing b with
  | nil => simp
  | cons x xs ih =>
    cases b with
    | nil => simp
    | cons y ys => simp [hfg, ih]

/-- Initialization commutes with injection. -/
theorem statsInit_lift (v : List ℚ) :
    statsInit (v.map some) = liftAcc (qInit v) := by
  simp only [statsInit, qInit, liftAcc,
    zipWith_some_lift nMul (fun a b => a * b) (fun _ _ => rfl)]

/-- One loop step commutes with injection. -/
theorem statsStep_lift (q : QAcc) (v : List ℚ) :
    statsStep (liftAcc q) (v.map some) = liftAcc (qStep q v) := by
  simp only [statsStep, qStep, liftAcc,
    zipWith_some_lift nMul (fun a b => a * b) (fun _ _ => rfl),
    zipWith_some_lift nAdd (fun a b => a + b) (fun _ _ => rfl),
    zipWith_some_lift nMax max (fun _ _ => rfl),
    zipWith_some_lift nMin min (fun _ _ => rfl)]

/-- The whole loop commutes with injection. -/
theorem foldl_statsStep_lift (qfs : List (List ℚ)) : ∀ q : QAcc,
    (qfs.map (fun v => v.map some)).foldl statsStep (liftAcc q) =
      liftAcc (qfs.foldl qStep q) := by
  induction qfs with
  | nil => intro q; rfl
  | cons v vs ih =>
    intro q
    rw [List.map_cons, List.foldl_cons, List.foldl_cons, statsStep_lift, ih]

/-- `statsAcc` of an injected NaN-free file. -/
theorem statsAcc_lift (v : List ℚ) (vs : List (List ℚ)) :
    statsAcc ((v :: vs).map (fun w => w.map some)) =
      some (liftAcc (vs.foldl qStep (qInit v))) := by
  rw [List.map_cons]
  show some ((vs.map (fun w => w.map some)).foldl statsStep (statsInit (v.map some))) = _
  rw [statsInit_lift, foldl_statsStep_lift]

/-- The count accumulated by the pure loop. -/
theorem qfold_count (qfs : List (List ℚ)) : ∀ q : QAcc,
    (qfs.foldl qStep q).count = q.count + qfs.length := by
  induction qfs with
  | nil => intro q; simp
  | cons v vs ih =>
    intro q
    rw [List.foldl_cons, ih]
    simp [qStep]
    omega

/-- The per-cell sums accumulated by the pure loop. -/
theorem qfold_average (qfs : List (List ℚ)) : ∀ q : QAcc,
    (qfs.foldl qStep q).average =
      qfs.foldl (fun a v => List.zipWith (fun x y => x + y) a v) q.average := by
  induction qfs with
  | nil => intro q; rfl
  | cons v vs ih => intro q; rw [List.foldl_cons, List.foldl_cons, ih]; rfl

/-- The per-cell sums of squares accumulated by the pure loop. -/
theorem qfold_stdev (qfs : List (List ℚ)) : ∀ q : QAcc,
    (qfs.foldl qStep q).stdev =
      qfs.foldl
        (fun a v => List.zipWith (fun x y => x + y) a (List.zipWith (fun x y => x * y) v v))
        q.stdev := by
  induction qfs with
  | nil => intro q; rfl
  | cons v vs ih => intro q; rw [List.foldl_cons, List.foldl_cons, ih]; rfl

/-- The per-cell maxima accumulated by the pure loop. -/
theorem qfold_maximum (qfs : List (List ℚ)) : ∀ q : QAcc,
    (qfs.foldl qStep q).maximum =
      qfs.foldl (fun a v => List.zipWith max a v) q.maximum := by
  induction qfs with
  | nil => intro q; rfl
  | cons v vs ih => intro q; rw [List.foldl_cons, List.foldl_cons, ih]; rfl

/-- The per-cell minima accumulated by the pure loop. -/
theorem qfold_minimum (qfs : List (List ℚ)) : ∀ q : QAcc,
    (qfs.foldl qStep q).minimum =
      qfs.foldl (fun a v => List.zipWith min a v) q.minimum := by
  induction qfs with
  | nil => intro q; rfl
  | cons v vs ih => intro q; rw [List.foldl_cons, List.foldl_cons, ih]; rfl

/-- Length preservation through a fold of length-preserving steps. -/
theorem foldl_length_inv (f : List ℚ → List ℚ → List ℚ) (m : Nat)
    (hstep : ∀ a v, a.length = m → v.length = m → (f a v).length = m)
    (fs : List (List ℚ)) : ∀ a, a.length = m → (∀ v ∈ fs, v.length = m) →
      (fs.foldl f a).length = m := by
  induction fs with
  | nil => intro a ha _; simpa using ha
  | cons v vs ih =>
    intro a ha hv
    rw [List.foldl_cons]
    exact ih (f a v) (hstep a v ha (hv v (List.mem_cons_self v vs)))
      (fun w hw => hv w (List.mem_cons_of_mem v hw))

/-- A left fold by addition, related to the sum. -/
theorem foldl_add_eq_sum (L : List ℚ) : ∀ q : ℚ,
    L.foldl (fun a b => a + b) q = q + L.sum := by
  induction L with
  | nil => intro q; simp
  | cons x xs ih =>
    intro q
    rw [List.foldl_cons, ih, List.sum_cons]
    ring

/-- Sum of an elementwise sum of equally long arrays. -/
theorem sum_zipWith_add (a : List ℚ) : ∀ b : List ℚ, a.length = b.length →
    (List.zipWith (fun x y => x + y) a b).sum = a.sum + b.sum := by
  induction a with
  | nil =>
    intro b h
    cases b with
    | nil => simp
    | cons y ys => simp at h
  | cons x xs ih =>
    intro b h
    cases b with
    | nil => simp at h
    | cons y ys =>
      rw [List.zipWith_cons_cons, List.sum_cons, List.sum_cons, List.sum_cons,
        ih ys (by simpa using h)]
      ring

/-- Sum of the fold that elementwise-adds a transform of every array. -/
theorem foldl_sum_add (t : List ℚ → List ℚ) (ht : ∀ v, (t v).length = v.length)
    (m : Nat) (fs : List (List ℚ)) : ∀ a, a.length = m → (∀ v ∈ fs, v.length = m) →
      (fs.foldl (fun a v => List.zipWith (fun x y => x + y) a (t v)) a).sum
        = a.sum + (fs.map (fun v => (t v).sum)).sum := by
  induction fs with
  | nil => intro a _ _; simp
  | cons v vs ih =>
    intro a ha hv
    have hvm : v.length = m := hv v (List.mem_cons_self v vs)
    have hlen1 : (List.zipWith (fun x y => x + y) a (t v)).length = m := by
      simp [List.length_zipWith, ha, ht v, hvm]
    rw [List.foldl_cons, ih _ hlen1 (fun w hw => hv w (List.mem_cons_of_mem v hw)),
      sum_zipWith_add a (t v) (by rw [ha, ht v, hvm]), List.map_cons, List.sum_cons]
    ring

/-- `getD` through `zipWith` of equally long arrays, for operations fixing
the default 0. -/
theorem getD_zipWith (g : ℚ → ℚ → ℚ) (hg : g 0 0 = 0) (a : List ℚ) :
    ∀ (b : List ℚ), a.length = b.length → ∀ j,
      (List.zipWith g a b).getD j 0 = g (a.getD j 0) (b.getD j 0) := by
  induction a with
  | nil =>
    intro b h j
    cases b with
    | nil => simp [hg]
    | cons y ys => simp at h
  | cons x xs ih =>
    intro b h j
    cases b with
    | nil => simp at h
    | cons y ys =>
      cases j with
      | zero => simp
      | succ jj => simpa using ih ys (by simpa using h) jj

/-- Each cell of the elementwise-minimum fold bounds the matching cell of
the initial array and of every folded array from below. -/
theorem foldl_zipWith_min_le (m : Nat) (fs : List (List ℚ)) :
    ∀ a, a.length = m → (∀ v ∈ fs, v.length = m) → ∀ j,
      (fs.foldl (fun a v => List.zipWith min a v) a).getD j 0 ≤ a.getD j 0 ∧
      ∀ v ∈ fs, (fs.foldl (fun a v => List.zipWith min a v) a).getD j 0 ≤ v.getD j 0 := by
  induction fs with
  | nil =>
    intro a _ _ j
    exact ⟨le_refl _, by simp⟩
  | cons v vs ih =>
    intro a ha hv j
    have hvm : v.length = m := hv v (List.mem_cons_self v vs)
    have hlen1 : (List.zipWith min a v).length = m := by
      simp [List.length_zipWith, ha, hvm]
    obtain ⟨h1, h2⟩ := ih (List.zipWith min a v) hlen1
      (fun w hw => hv w (List.mem_cons_of_mem v hw)) j
    have hz : (List.zipWith min a v).getD j 0 = min (a.getD j 0) (v.getD j 0) :=
      getD_zipWith min (by simp) a v (by rw [ha, hvm]) j
    rw [List.foldl_cons]
    refine ⟨le_trans h1 ?_, fun w hw => ?_⟩
    · rw [hz]
      exact min_le_left _ _
    · rcases List.mem_cons.mp hw with hwv | hw2
      · subst hwv
        exact le_trans h1 (by rw [hz]; exact min_le_right _ _)
      · exact h2 w hw2

/-- Each cell of the elementwise-maximum fold bounds the matching cell of
the initial array and of every folded array from above. -/
theorem foldl_zipWith_max_ge (m : Nat) (fs : List (List ℚ)) :
    ∀ a, a.length = m → (∀ v ∈ fs, v.length = m) → ∀ j,
      a.getD j 0 ≤ (fs.foldl (fun a v => List.zipWith max a v) a).getD j 0 ∧
      ∀ v ∈ fs, v.getD j 0 ≤ (fs.foldl (fun a v => List.zipWith max a v) a).getD j 0 := by
  induction fs with
  | nil =>
    intro a _ _ j
    exact ⟨le_refl _, by simp⟩
  | cons v vs ih =>
    intro a ha hv j
    have hvm : v.length = m := hv v (List.mem_cons_self v vs)
    have hlen1 : (List.zipWith max a v).length = m := by
      simp [List.length_zipWith, ha, hvm]
    obtain ⟨h1, h2⟩ := ih (List.zipWith max a v) hlen1
      (fun w hw => hv w (List.mem_cons_of_mem v hw)) j
    have hz : (List.zipWith max a v).getD j 0 = max (a.getD j 0) (v.getD j 0) :=
      getD_zipWith max (by simp) a v (by rw [ha, hvm]) j
    rw [List.foldl_cons]
    refine ⟨le_trans ?_ h1, fun w hw => ?_⟩
    · rw [hz]
      exact le_max_left _ _
    · rcases List.mem_cons.mp hw with hwv | hw2
      · subst hwv
        exact le_trans (by rw [hz]; exact le_max_right _ _) h1
      · exact h2 w hw2

/-- A cell of an elementwise choice of two arrays is a cell of one of them. -/
theorem mem_zipWith_choice (g : ℚ → ℚ → ℚ) (hg : ∀ a b, g a b = a ∨ g a b = b)
    (a : List ℚ) : ∀ (b : List ℚ), ∀ x ∈ List.zipWith g a b, x ∈ a ∨ x ∈ b := by
  induction a with
  | nil => intro b x hx; simp at hx
  | cons p ps ih =>
    intro b x hx
    cases b with
    | nil => simp at hx
    | cons q qs =>
      rw [List.zipWith_cons_cons] at hx
      rcases List.mem_cons.mp hx with rfl | hx2
      · rcases hg p q with h | h
        · exact Or.inl (by rw [h]; exact List.mem_cons_self p ps)
        · exact Or.inr (by rw [h]; exact List.mem_cons_self q qs)
      · rcases ih qs x hx2 with h | h
        · exact Or.inl (List.mem_cons_of_mem p h)
        · exact Or.inr (List.mem_cons_of_mem q h)

/-- A cell of the elementwise-choice fold is a cell of the initial array
or of one of the folded arrays. -/
theorem foldl_zipWith_mem (g : ℚ → ℚ → ℚ) (hg : ∀ a b, g a b = a ∨ g a b = b)
    (fs : List (List ℚ)) : ∀ a, ∀ x ∈ fs.foldl (fun a v => List.zipWith g a v) a,
      x ∈ a ∨ ∃ v ∈ fs, x ∈ v := by
  induction fs with
  | nil => intro a x hx; exact Or.inl hx
  | cons v vs ih =>
    intro a x hx
    rw [List.foldl_cons] at hx
    rcases ih (List.zipWith g a v) x hx with h | ⟨w, hw, hxw⟩
    · rcases mem_zipWith_choice g hg a v x h with h2 | h2
      · exact Or.inl h2
      · exact Or.inr ⟨v, List.mem_cons_self v vs, h2⟩
    · exact Or.inr ⟨w, List.mem_cons_of_mem v hw, hxw⟩

/-- The NaN-propagating reductions agree with the pure ones on NaN-free
arrays. -/
theorem foldl_nMin_lift (mt : List ℚ) : ∀ x : ℚ,
    (mt.map some).foldl nMin (some x) = some (mt.foldl min x) := by
  induction mt with
  | nil => intro x; rfl
  | cons y ys ih => intro x; exact ih (min x y)

theorem foldl_nMax_lift (mt : List ℚ) : ∀ x : ℚ,
    (mt.map some).foldl nMax (some x) = some (mt.foldl max x) := by
  induction mt with
  | nil => intro x; rfl
  | cons y ys ih => intro x; exact ih (max x y)

theorem foldl_nAdd_lift (mt : List ℚ) : ∀ x : ℚ,
    (mt.map some).foldl nAdd (some x) = some (mt.foldl (fun a b => a + b) x) := by
  induction mt with
  | nil => intro x; rfl
  | cons y ys ih => intro x; exact ih (x + y)

/-- `np.amin` of a NaN-free non-empty array is its `min?`. -/
theorem npAmin_lift (m0 : ℚ) (mt : List ℚ) :
    npAmin ((m0 :: mt).map some) = (m0 :: mt).min? := by
  rw [List.min?_cons']
  exact foldl_nMin_lift mt m0

/-- `np.amax` of a NaN-free non-empty array is its `max?`. -/
theorem npAmax_lift (m0 : ℚ) (mt : List ℚ) :
    npAmax ((m0 :: mt).map some) = (m0 :: mt).max? := by
  rw [List.max?_cons']
  exact foldl_nMax_lift mt m0

/-- `np.mean` of a NaN-free array is its sum over its length. -/
theorem npMean_lift (L : List ℚ) :
    npMean (L.map some) = some (L.sum / (L.length : ℚ)) := by
  rw [npMean, foldl_nAdd_lift L 0, foldl_add_eq_sum, nDivNat, List.length_map]
  simp

/-- NaN-free arrays have no NaN cell. -/
theorem any_isNone_map_some (L : List ℚ) :
    ((L.map some).any fun c => c.isNone) = false := by
  induction L with
  | nil => rfl
  | cons a as ih => simp [ih]

/-- `getD` with the in-range default is the cell itself. -/
theorem getD_eq_getElem_of_lt (v : List ℚ) (i : Nat) (hi : i < v.length) :
    v.getD i 0 = v[i] := by
  simp [List.getD, List.getElem?_eq_getElem hi]

/-- Claim C5: on a NaN-free file of `N` same-shape messages with at least
one grid cell, `statistics()` returns `count = N`, the least cell value
over all grids as `minimum`, the greatest as `maximum`,
`average = mean(per-cell sums)/N = (total sum)/(m*N)`, and a standard
deviation whose square is `mean(per-cell sums of squares)/N - average^2`. -/
theorem statistics_correct (qfields : List (List ℚ)) (m : Nat)
    (hne : qfields ≠ []) (hm : 0 < m) (hlen : ∀ v ∈ qfields, v.length = m) :
    ∃ r : Stats,
      statisticsCompute (qfields.map (fun v => v.map some)) = Except.ok r ∧
      r.count = qfields.length ∧
      (∃ mn : ℚ, r.minimum = some mn ∧ (∃ v ∈ qfields, mn ∈ v) ∧
        ∀ v ∈ qfields, ∀ x ∈ v, mn ≤ x) ∧
      (∃ mx : ℚ, r.maximum = some mx ∧ (∃ v ∈ qfields, mx ∈ v) ∧
        ∀ v ∈ qfields, ∀ x ∈ v, x ≤ mx) ∧
      r.average = some ((qfields.map List.sum).sum / (m : ℚ) / (qfields.length : ℚ)) ∧
      r.stdev_sq = some
        ((qfields.map (fun v => (List.zipWith (fun x y => x * y) v v).sum)).sum / (m : ℚ)
            / (qfields.length : ℚ)
          - (qfields.map List.sum).sum / (m : ℚ) / (qfields.length : ℚ)
            * ((qfields.map List.sum).sum / (m : ℚ) / (qfields.length : ℚ))) := by
  obtain ⟨f, fs, rfl⟩ : ∃ f fs, qfields = f :: fs := by
    cases qfields with
    | nil => exact absurd rfl hne
    | cons f fs => exact ⟨f, fs, rfl⟩
  have hf : f.length = m := hlen f (List.mem_cons_self f fs)
  have hfs : ∀ v ∈ fs, v.length = m := fun v hv => hlen v (List.mem_cons_of_mem f hv)
  have havg : (fs.foldl qStep (qInit f)).average =
      fs.foldl (fun a v => List.zipWith (fun x y => x + y) a v) f :=
    qfold_average fs (qInit f)
  have hmin : (fs.foldl qStep (qInit f)).minimum =
      fs.foldl (fun a v => List.zipWith min a v) f :=
    qfold_minimum fs (qInit f)
  have hmax : (fs.foldl qStep (qInit f)).maximum =
      fs.foldl (fun a v => List.zipWith max a v) f :=
    qfold_maximum fs (qInit f)
  have hstd : (fs.foldl qStep (qInit f)).stdev =
      fs.foldl
        (fun a v => List.zipWith (fun x y => x + y) a (List.zipWith (fun x y => x * y) v v))
        (List.zipWith (fun x y => x * y) f f) :=
    qfold_stdev fs (qInit f)
  have hcount : (fs.foldl qStep (qInit f)).count = fs.length + 1 := by
    rw [qfold_count fs (qInit f)]
    show 1 + fs.length = fs.length + 1
    omega
  have havglen : (fs.foldl qStep (qInit f)).average.length = m := by
    rw [havg]
    exact foldl_length_inv _ m
      (fun a v ha hv => by simp [List.length_zipWith, ha, hv]) fs f hf hfs
  have hminlen : (fs.foldl qStep (qInit f)).minimum.length = m := by
    rw [hmin]
    exact foldl_length_inv _ m
      (fun a v ha hv => by simp [List.length_zipWith, ha, hv]) fs f hf hfs
  have hmaxlen : (fs.foldl qStep (qInit f)).maximum.length = m := by
    rw [hmax]
    exact foldl_length_inv _ m
      (fun a v ha hv => by simp [List.length_zipWith, ha, hv]) fs f hf hfs
  have hstdlen : (fs.foldl qStep (qInit f)).stdev.length = m := by
    rw [hstd]
    refine foldl_length_inv _ m
      (fun a v ha hv => by simp [List.length_zipWith, ha, hv]) fs
      (List.zipWith (fun x y => x * y) f f) ?_ hfs
    simp [List.length_zipWith, hf]
  have havgsum : (fs.foldl qStep (qInit f)).average.sum =
      ((f :: fs).map List.sum).sum := by
    rw [havg, List.map_cons, List.sum_cons]
    exact foldl_sum_add (fun v => v) (fun v => rfl) m fs f hf hfs
  have hstdsum : (fs.foldl qStep (qInit f)).stdev.sum =
      ((f :: fs).map (fun v => (List.zipWith (fun x y => x * y) v v).sum)).sum := by
    rw [hstd, List.map_cons, List.sum_cons]
    exact foldl_sum_add (fun v => List.zipWith (fun x y => x * y) v v)
      (fun v => by simp [List.length_zipWith]) m fs
      (List.zipWith (fun x y => x * y) f f) (by simp [List.length_zipWith, hf]) hfs
  -- shapes of the reduced arrays
  obtain ⟨a0, arest, hA⟩ : ∃ a0 arest,
      (fs.foldl qStep (qInit f)).average = a0 :: arest := by
    cases hA : (fs.foldl qStep (qInit f)).average with
    | nil => rw [hA] at havglen; simp at havglen; omega
    | cons a0 arest => exact ⟨a0, arest, rfl⟩
  obtain ⟨m0, mrest, hM⟩ : ∃ m0 mrest,
      (fs.foldl qStep (qInit f)).minimum = m0 :: mrest := by
    cases hM : (fs.foldl qStep (qInit f)).minimum with
    | nil => rw [hM] at hminlen; simp at hminlen; omega
    | cons m0 mrest => exact ⟨m0, mrest, rfl⟩
  obtain ⟨x0, xrest, hX⟩ : ∃ x0 xrest,
      (fs.foldl qStep (qInit f)).maximum = x0 :: xrest := by
    cases hX : (fs.foldl qStep (qInit f)).maximum with
    | nil => rw [hX] at hmaxlen; simp at hmaxlen; omega
    | cons x0 xrest => exact ⟨x0, xrest, rfl⟩
  -- the reduced minimum
  have hmin? : ((fs.foldl qStep (qInit f)).minimum).min? = some (mrest.foldl min m0) := by
    rw [hM]
    exact List.min?_cons'
  have hmnmem : (mrest.foldl min m0) ∈ (fs.foldl qStep (qInit f)).minimum :=
    List.min?_mem (fun a b => min_choice a b) hmin?
  have hmnle : ∀ b ∈ (fs.foldl qStep (qInit f)).minimum, mrest.foldl min m0 ≤ b :=
    fun b hb => (List.le_min?_iff (fun a b c => le_min_iff) hmin?).mp
      (le_refl (mrest.foldl min m0)) b hb
  -- the reduced maximum
  have hmax? : ((fs.foldl qStep (qInit f)).maximum).max? = some (xrest.foldl max x0) := by
    rw [hX]
    exact List.max?_cons'
  have hmxmem : (xrest.foldl max x0) ∈ (fs.foldl qStep (qInit f)).maximum :=
    List.max?_mem (fun a b => max_choice a b) hmax?
  have hmxge : ∀ b ∈ (fs.foldl qStep (qInit f)).maximum, b ≤ xrest.foldl max x0 :=
    fun b hb => (List.max?_le_iff (fun a b c => max_le_iff) hmax?).mp
      (le_refl (xrest.foldl max x0)) b hb
  -- evaluate the computation
  have hg1 : ¬((((fs.foldl qStep (qInit f)).average.map some).any fun c => c.isNone) = true) := by
    rw [any_isNone_map_some]
    simp
  have hg2 : ((fs.foldl qStep (qInit f)).average.map some).isEmpty = false := by
    rw [hA]
    rfl
  have hmain : statisticsCompute ((f :: fs).map (fun w => w.map some)) =
      Except.ok
        { minimum := npAmin ((fs.foldl qStep (qInit f)).minimum.map some)
          maximum := npAmax ((fs.foldl qStep (qInit f)).maximum.map some)
          average := nDivNat (npMean ((fs.foldl qStep (qInit f)).average.map some))
            (fs.foldl qStep (qInit f)).count
          stdev_sq := nSub
            (nDivNat (npMean ((fs.foldl qStep (qInit f)).stdev.map some))
              (fs.foldl qStep (qInit f)).count)
            (nMul
              (nDivNat (npMean ((fs.foldl qStep (qInit f)).average.map some))
                (fs.foldl qStep (qInit f)).count)
              (nDivNat (npMean ((fs.foldl qStep (qInit f)).average.map some))
                (fs.foldl qStep (qInit f)).count))
          count := (fs.foldl qStep (qInit f)).count } := by
    unfold statisticsCompute
    rw [statsAcc_lift]
    show (if ((fs.foldl qStep (qInit f)).average.map some).any (fun c => c.isNone) = true
      then _ else _) = _
    rw [if_neg hg1]
    have hg2' : ¬(liftAcc (fs.foldl qStep (qInit f))).average.isEmpty = true := by
      show ¬((fs.foldl qStep (qInit f)).average.map some).isEmpty = true
      rw [hg2]
      simp
    rw [if_neg hg2']
    rfl
  -- component values
  have hmean_avg : npMean ((fs.foldl qStep (qInit f)).average.map some) =
      some (((f :: fs).map List.sum).sum / (m : ℚ)) := by
    rw [npMean_lift, havgsum, havglen]
  have hmean_std : npMean ((fs.foldl qStep (qInit f)).stdev.map some) =
      some (((f :: fs).map (fun v => (List.zipWith (fun x y => x * y) v v).sum)).sum / (m : ℚ)) := by
    rw [npMean_lift, hstdsum, hstdlen]
  have hN : ((fs.foldl qStep (qInit f)).count : ℚ) = ((f :: fs).length : ℚ) := by
    rw [hcount, List.length_cons]
  refine ⟨_, hmain, ?_, ?_, ?_, ?_, ?_⟩
  · show (fs.foldl qStep (qInit f)).count = (f :: fs).length
    rw [hcount, List.length_cons]
  · -- minimum is the least cell value
    refine ⟨mrest.foldl min m0, ?_, ?_, ?_⟩
    · show npAmin ((fs.foldl qStep (qInit f)).minimum.map some) = _
      rw [hM, npAmin_lift, List.min?_cons']
    · have := foldl_zipWith_mem min (fun a b => min_choice a b) fs f
        (mrest.foldl min m0) (by rw [← hmin]; exact hmnmem)
      rcases this with h | ⟨v, hv, hxv⟩
      · exact ⟨f, List.mem_cons_self f fs, h⟩
      · exact ⟨v, List.mem_cons_of_mem f hv, hxv⟩
    · intro v hv x hx
      have hvm : v.length = m := hlen v hv
      obtain ⟨i, hi, hxi⟩ := List.mem_iff_getElem.mp hx
      have him : i < m := by omega
      have hbound := foldl_zipWith_min_le m fs f hf hfs i
      have hcell : (fs.foldl qStep (qInit f)).minimum.getD i 0 ∈
          (fs.foldl qStep (qInit f)).minimum := by
        have : i < (fs.foldl qStep (qInit f)).minimum.length := by omega
        rw [getD_eq_getElem_of_lt _ i this]
        exact List.getElem_mem this
      have h1 : mrest.foldl min m0 ≤ (fs.foldl qStep (qInit f)).minimum.getD i 0 :=
        hmnle _ hcell
      have h2 : (fs.foldl qStep (qInit f)).minimum.getD i 0 ≤ v.getD i 0 := by
        rw [hmin]
        rcases List.mem_cons.mp hv with rfl | hv2
        · exact hbound.1
        · exact hbound.2 v hv2
      have h3 : v.getD i 0 = x := by
        rw [getD_eq_getElem_of_lt v i (by omega), hxi]
      exact le_trans h1 (h3 ▸ h2)
  · -- maximum is the greatest cell value
    refine ⟨xrest.foldl max x0, ?_, ?_, ?_⟩
    · show npAmax ((fs.foldl qStep (qInit f)).maximum.map some) = _
      rw [hX, npAmax_lift, List.max?_cons']
    · have := foldl_zipWith_mem max (fun a b => max_choice a b) fs f
        (xrest.foldl max x0) (by rw [← hmax]; exact hmxmem)
      rcases this with h | ⟨v, hv, hxv⟩
      · exact ⟨f, List.mem_cons_self f fs, h⟩
      · exact ⟨v, List.mem_cons_of_mem f hv, hxv⟩
    · intro v hv x hx
      have hvm : v.length = m := hlen v hv
      obtain ⟨i, hi, hxi⟩ := List.mem_iff_getElem.mp hx
      have hbound := foldl_zipWith_max_ge m fs f hf hfs i
      have hcell : (fs.foldl qStep (qInit f)).maximum.getD i 0 ∈
          (fs.foldl qStep (qInit f)).maximum := by
        have : i < (fs.foldl qStep (qInit f)).maximum.length := by omega
        rw [getD_eq_getElem_of_lt _ i this]
        exact List.getElem_mem this
      have h1 : (fs.foldl qStep (qInit f)).maximum.getD i 0 ≤ xrest.foldl max x0 :=
        hmxge _ hcell
      have h2 : v.getD i 0 ≤ (fs.foldl qStep (qInit f)).maximum.getD i 0 := by
        rw [hmax]
        rcases List.mem_cons.mp hv with rfl | hv2
        · exact hbound.1
        · exact hbound.2 v hv2
      have h3 : v.getD i 0 = x := by
        rw [getD_eq_getElem_of_lt v i (by omega), hxi]
      exact le_trans (h3 ▸ h2) h1
  · -- the average formula
    show nDivNat (npMean ((fs.foldl qStep (qInit f)).average.map some))
      (fs.foldl qStep (qInit f)).count = _
    rw [hmean_avg, nDivNat, Option.map_some', hN]
  · -- the squared standard deviation formula
    show nSub
        (nDivNat (npMean ((fs.foldl qStep (qInit f)).stdev.map some))
          (fs.foldl qStep (qInit f)).count)
        (nMul
          (nDivNat (npMean ((fs.foldl qStep (qInit f)).average.map some))
            (fs.foldl qStep (qInit f)).count)
          (nDivNat (npMean ((fs.foldl qStep (qInit f)).average.map some))
            (fs.foldl qStep (qInit f)).count)) = _
    rw [hmean_avg, hmean_std, nDivNat, nDivNat, Option.map_some', Option.map_some', hN]
    rfl

/-- Claim C5 witness: three constant grids of values 1, 2, 3 over two
cells give count 3, minimum 1, maximum 3, average 2 and squared standard
deviation 2/3 (standard deviation `sqrt(2/3)`). -/
theorem statistics_correct_witness :
    (∃ r : Stats,
      statisticsCompute ([[1, 1], [2, 2], [3, 3]].map (fun v => v.map some)) =
        Except.ok r ∧ r.count = 3) ∧
    statisticsCompute ([[1, 1], [2, 2], [3, 3]].map (fun v => v.map some)) =
      Except.ok ⟨some 1, some 3, some 2, some (2 / 3), 3⟩ := by
  constructor
  · obtain ⟨r, hr, hc, _⟩ := statistics_correct [[1, 1], [2, 2], [3, 3]] 2
      (by decide) (by decide) (by decide)
    exact ⟨r, hr, by simpa using hc⟩
  · with_unfolding_all rfl
